import Mathlib

/-!
Shallow embedding of the voice-chat relay server (`server.py`): the SQLite
message store, the turn pipeline (`speak_handler` / `process_voice_message` /
`call_main_session` / `generate_tts`), the delivery endpoints (poll, history,
delivered), and the browser client's utterance-buffering state machine
(`processAudio` / `sendBufferedSpeech`).

External effects (the HTTP call to the main session, the TTS subprocess,
wall-clock timestamps) are passed in as explicit parameters describing the
outcome of the effect; machine-level details (SQLite storage, JSON transport)
are elided, but every branch of the relevant source functions is mirrored.
-/

namespace VoiceChat

/-! ### Character-list string helpers

The source manipulates Python and JavaScript strings with `strip`/`trim`,
`toLowerCase`, `endsWith`, `includes` and a tail-anchored regex replace.
These are modelled over `List Char` so they compute in the kernel.
-/

/-- Drop leading whitespace characters. -/
def dropLeadingWS (l : List Char) : List Char := l.dropWhile Char.isWhitespace

/-- Drop trailing whitespace characters. -/
def dropTrailingWS (l : List Char) : List Char :=
  (l.reverse.dropWhile Char.isWhitespace).reverse

/-- Python `str.strip()` / JS `String.trim()`: drop whitespace at both ends. -/
def strTrim (s : String) : String := ⟨dropTrailingWS (dropLeadingWS s.data)⟩

/-- JS `String.toLowerCase()` (ASCII case is all the source relies on). -/
def lowerStr (s : String) : String := ⟨s.data.map Char.toLower⟩

/-- Does `l` begin with `pat`? (JS `startsWith` on char lists.) -/
def beginsWith : List Char → List Char → Bool
  | _, [] => true
  | [], _ :: _ => false
  | c :: cs, p :: ps => c = p && beginsWith cs ps

/-- Does `l` end with `pat`? (JS `String.endsWith` on char lists.) -/
def endsWithB (l pat : List Char) : Bool :=
  decide (pat.length ≤ l.length) && decide (l.drop (l.length - pat.length) = pat)

/-- Does `l` contain `pat` as a contiguous run? (JS `String.includes`.) -/
def containsB : List Char → List Char → Bool
  | [], pat => beginsWith [] pat
  | c :: rest, pat => beginsWith (c :: rest) pat || containsB rest pat

/-- JS `endsWith` lifted to `String`. -/
def strEndsWith (s pat : String) : Bool := endsWithB s.data pat.data

/-- JS `includes` lifted to `String`. -/
def strContains (s pat : String) : Bool := containsB s.data pat.data

/-! ### The message store (`messages` table) -/

/-- One row of the `messages` table. -/
structure Entry where
  id : Nat
  timestamp : Nat
  direction : String
  text : String
  audio_path : Option String
  delivered : Bool
deriving DecidableEq, Repr

/-- The columns the read endpoints select
    (`SELECT id, timestamp, direction, text, audio_path`). -/
structure EntryView where
  id : Nat
  timestamp : Nat
  direction : String
  text : String
  audio_path : Option String
deriving DecidableEq, Repr

/-- Project a row onto the selected columns. -/
def Entry.view (e : Entry) : EntryView :=
  ⟨e.id, e.timestamp, e.direction, e.text, e.audio_path⟩

/-- The SQLite `messages` table: the rows plus the AUTOINCREMENT counter. -/
structure Store where
  entries : List Entry
  nextId : Nat
deriving DecidableEq, Repr

/-- Freshly initialized database: no rows, AUTOINCREMENT starts at 1. -/
def Store.init : Store := ⟨[], 1⟩

/-- Insertion step of insertion sort on ascending `id`. -/
def insertById (e : Entry) : List Entry → List Entry
  | [] => [e]
  | x :: xs => if e.id ≤ x.id then e :: x :: xs else x :: insertById e xs

/-- `ORDER BY id ASC` (ids are unique, being the PRIMARY KEY, so any
    comparison sort computes the same list). -/
def sortById : List Entry → List Entry
  | [] => []
  | x :: xs => insertById x (sortById xs)

/-- `ORDER BY id DESC`: with unique ids this is the reverse of ascending. -/
def sortByIdDesc (l : List Entry) : List Entry := (sortById l).reverse

/-- `db_insert_message`: INSERT a row with the next AUTOINCREMENT id and
    `delivered = 0`; returns the new store and `cursor.lastrowid`. -/
def db_insert_message (s : Store) (ts : Nat) (direction text : String)
    (audio_path : Option String) : Store × Nat :=
  (⟨s.entries ++ [⟨s.nextId, ts, direction, text, audio_path, false⟩], s.nextId + 1⟩,
    s.nextId)

/-- `db_get_messages_since`: `WHERE id > since_id ORDER BY id ASC LIMIT limit`,
    selecting the view columns. -/
def db_get_messages_since (s : Store) (since_id limit : Nat) : List EntryView :=
  ((sortById (s.entries.filter fun e => since_id < e.id)).take limit).map Entry.view

/-- `db_mark_delivered`: `UPDATE messages SET delivered = 1 WHERE id = ?`. -/
def db_mark_delivered (s : Store) (msg_id : Nat) : Store :=
  ⟨s.entries.map fun e => if e.id = msg_id then { e with delivered := true } else e,
    s.nextId⟩

/-- `UPDATE messages SET audio_path = ? WHERE id = ?` (used by the pipeline to
    attach the synthesized asset). -/
def db_set_audio_path (s : Store) (msg_id : Nat) (path : String) : Store :=
  ⟨s.entries.map fun e => if e.id = msg_id then { e with audio_path := some path } else e,
    s.nextId⟩

/-! ### Turn pipeline -/

/-- Outcome of the HTTP call made by `call_main_session`: the request timed
    out, raised a connection/I-O error, or returned a body whose
    `choices[0].message.content` is the given string. -/
inductive RelayResult where
  | timeout
  | connError
  | content (text : String)
deriving DecidableEq, Repr

/-- `call_main_session`: timeouts and errors are caught and become `none`;
    an empty `content` is logged as an empty response and becomes `none`;
    otherwise the response text is returned. -/
def call_main_session (r : RelayResult) : Option String :=
  match r with
  | .timeout => none
  | .connError => none
  | .content t => if t = "" then none else some t

/-- `generate_tts`: the external synthesis subprocess either produces the file
    `/audio/jarvis_<id>.mp3` (returning its URL path) or fails — subprocess
    error, timeout, or no file produced — returning `none`. `ok` is the
    outcome of the external process. -/
def generate_tts (ok : Bool) (msg_id : Nat) : Option String :=
  if ok then some ("/audio/jarvis_" ++ toString msg_id ++ ".mp3") else none

/-- `process_voice_message`: relay the user text to the main session; on a
    reply, insert it as a `jarvis` row, run TTS, and attach the audio path if
    synthesis produced one; on relay failure do nothing and return `None`. -/
def process_voice_message (relay : RelayResult) (ttsOk : Bool) (ts : Nat)
    (s : Store) (_text : String) (_msg_id : Nat) : Store × Option Nat :=
  match call_main_session relay with
  | none => (s, none)
  | some response =>
    let ins := db_insert_message s ts "jarvis" response none
    match generate_tts ttsOk ins.2 with
    | some p => (db_set_audio_path ins.1 ins.2 p, some ins.2)
    | none => (ins.1, some ins.2)

/-- `speak_handler` (`POST /api/speak`): strip the text; reject empty text
    with an error response (`none`); otherwise insert the `user` row, run
    `process_voice_message` synchronously, and answer with
    `{'message_id': msg_id, 'response_id': response_id}`. -/
def speak_handler (relay : RelayResult) (ttsOk : Bool) (ts : Nat)
    (s : Store) (rawText : String) : Store × Option (Nat × Option Nat) :=
  let text := strTrim rawText
  if text = "" then (s, none)
  else
    let ins := db_insert_message s ts "user" text none
    let pvm := process_voice_message relay ttsOk ts ins.1 text ins.2
    (pvm.1, some (ins.2, pvm.2))

/-- `respond_handler` (`POST /api/respond`): strip the text; reject empty text;
    otherwise insert a `jarvis` row, run TTS, attach the audio path on
    success, and return the new id. -/
def respond_handler (ttsOk : Bool) (ts : Nat) (s : Store) (rawText : String) :
    Store × Option Nat :=
  let text := strTrim rawText
  if text = "" then (s, none)
  else
    let ins := db_insert_message s ts "jarvis" text none
    match generate_tts ttsOk ins.2 with
    | some p => (db_set_audio_path ins.1 ins.2 p, some ins.2)
    | none => (ins.1, some ins.2)

/-- `poll_handler` (`GET /api/poll?since=`): reads with the default limit of
    50 — the client cannot choose the batch size. -/
def poll_handler (s : Store) (since_id : Nat) : List EntryView :=
  db_get_messages_since s since_id 50

/-- `history_handler` (`GET /api/history?limit=`): most recent `limit` rows,
    fetched descending and then reversed to ascending order. -/
def history_handler (s : Store) (limit : Nat) : List EntryView :=
  (((sortByIdDesc s.entries).take limit).map Entry.view).reverse

/-- `delivered_handler` (`POST /api/delivered/{id}`). -/
def delivered_handler (s : Store) (msg_id : Nat) : Store :=
  db_mark_delivered s msg_id

/-! ### Reachable store states

The store is mutated only by the three state-changing endpoints; a reachable
state is the result of any sequence of them from the freshly initialized
database. -/

/-- One server-side state-changing request. -/
inductive Op where
  | speak (relay : RelayResult) (ttsOk : Bool) (ts : Nat) (text : String)
  | respond (ttsOk : Bool) (ts : Nat) (text : String)
  | ack (msg_id : Nat)
deriving Repr

/-- Apply one request to the store. -/
def applyOp (s : Store) : Op → Store
  | .speak relay ttsOk ts text => (speak_handler relay ttsOk ts s text).1
  | .respond ttsOk ts text => (respond_handler ttsOk ts s text).1
  | .ack msg_id => delivered_handler s msg_id

/-- Run a sequence of requests from the initial store. -/
def runOps (ops : List Op) : Store := ops.foldl applyOp Store.init

/-- A store state the server can actually be in. -/
def Reachable (s : Store) : Prop := ∃ ops, s = runOps ops

/-! ### Client-side utterance buffering (`processAudio` / `sendBufferedSpeech`)

The browser accumulates transcribed segments in `speechBuffer`; `sent` records
the utterances submitted to `/api/speak` (`sendToServer`). -/

/-- The client's buffering state. -/
structure ClientState where
  speechBuffer : List String
  sent : List String
deriving DecidableEq, Repr

/-- Empty buffer, nothing sent. -/
def ClientState.init : ClientState := ⟨[], []⟩

/-- The cue check on the trimmed transcript:
    `lowerText.includes('over') && (lowerText.endsWith('over') ||
    lowerText.endsWith('over.'))`. -/
def codeFlushTrigger (text : String) : Bool :=
  let lowerText := lowerStr text
  strContains lowerText "over" &&
    (strEndsWith lowerText "over" || strEndsWith lowerText "over.")

/-- `text.replace(/\s*over\.?\s*$/i, '')`: if the text ends (case
    insensitively) with "over", optionally followed by one "." and
    whitespace, and preceded by whitespace, remove that tail; otherwise the
    text is unchanged. -/
def stripOverSuffix (text : String) : String :=
  let l := dropTrailingWS text.data
  let l2 := if endsWithB l ['.'] then l.dropLast else l
  if endsWithB (l2.map Char.toLower) ['o', 'v', 'e', 'r'] then
    ⟨dropTrailingWS (l2.take (l2.length - 4))⟩
  else text

/-- `sendToServer`: POST the text to `/api/speak`. -/
def sendToServer (st : ClientState) (text : String) : ClientState :=
  { st with sent := st.sent ++ [text] }

/-- `sendBufferedSpeech`: bail out on an empty buffer; otherwise join the
    segments with single spaces, trim, clear the buffer, and send the joined
    text when it is non-empty. -/
def sendBufferedSpeech (st : ClientState) : ClientState :=
  if st.speechBuffer = [] then st
  else
    let fullText := strTrim (String.intercalate " " st.speechBuffer)
    let st1 : ClientState := { st with speechBuffer := [] }
    if fullText ≠ "" then sendToServer st1 fullText else st1

/-- Text-handling tail of the client's `processAudio` handler, for one
    transcription result. In buffer mode ("over" mode) a segment that passes
    `codeFlushTrigger` is stripped of the cue tail, appended if non-empty,
    and the buffer is flushed; otherwise the segment is buffered. In
    immediate mode the segment is sent right away. Empty and `(silence)`
    transcripts are dropped. -/
def processSegment (overMode : Bool) (st : ClientState) (transcript : String) :
    ClientState :=
  if transcript ≠ "" ∧ transcript ≠ "(silence)" then
    let text := strTrim transcript
    if overMode then
      if codeFlushTrigger text then
        let cleanText := strTrim (stripOverSuffix text)
        let st1 := if cleanText ≠ "" then
          { st with speechBuffer := st.speechBuffer ++ [cleanText] } else st
        sendBufferedSpeech st1
      else { st with speechBuffer := st.speechBuffer ++ [text] }
    else sendToServer st text
  else st

/-- Feed a list of transcribed segments through the client, in order. -/
def processSegments (overMode : Bool) (st : ClientState) (ts : List String) :
    ClientState :=
  ts.foldl (processSegment overMode) st

/-- Modelled from the spec: "after trimming trailing punctuation" — drop
    trailing sentence punctuation characters (used only to state the spec's
    version of the cue rule, for comparison with `codeFlushTrigger`). -/
def trimTrailingPunct (s : String) : String :=
  ⟨(s.data.reverse.dropWhile fun c =>
      c = '.' ∨ c = ',' ∨ c = '!' ∨ c = '?' ∨ c = ';' ∨ c = ':').reverse⟩

/-- Modelled from the spec: a segment "is a flush trigger exactly when, after
    trimming trailing punctuation, it case-insensitively ends with the cue
    word \"over\"". -/
def specFlushTrigger (text : String) : Bool :=
  strEndsWith (lowerStr (trimTrailingPunct text)) "over"

/-! ### Auxiliary definitions used by the development -/

/-- The row transformation performed by `db_mark_delivered`. -/
def markFn (i : Nat) (e : Entry) : Entry :=
  if e.id = i then { e with delivered := true } else e

/-- The row transformation performed by `db_set_audio_path`. -/
def audioFn (j : Nat) (p : String) (e : Entry) : Entry :=
  if e.id = j then { e with audio_path := some p } else e

/-- Per-row part of the store invariant: the id is below the AUTOINCREMENT
    counter, the text is non-empty, and user rows never carry an audio
    asset. -/
def entryOk (n : Nat) (e : Entry) : Prop :=
  e.id < n ∧ e.text ≠ "" ∧ (e.direction = "user" → e.audio_path = none)

/-- Store invariant: rows are strictly ascending by id and each row is ok. -/
def Inv (s : Store) : Prop :=
  List.Pairwise (fun a b : Entry => a.id < b.id) s.entries ∧
    ∀ e ∈ s.entries, entryOk s.nextId e

/-- A one-turn request trace used to exhibit concrete reachable states. -/
def speakDemoOps : List Op := [.speak (.content "Hi.") true 0 "hello"]

/-- The reply row that `speakDemoOps` leaves in the store. -/
def replyDemoEntry : Entry := ⟨2, 0, "jarvis", "Hi.", some "/audio/jarvis_2.mp3", false⟩

/-- A small concrete store used to instantiate ack facts. -/
def ackDemoStore : Store := ⟨[⟨1, 0, "user", "hi", none, false⟩], 2⟩

/-- A concrete store with one delivered and one undelivered row. -/
def frameDemoStore : Store :=
  ⟨[⟨1, 0, "user", "hi", none, true⟩, ⟨2, 1, "jarvis", "yo", none, false⟩], 3⟩

/-! ### Helper lemmas: the character-list functions -/

theorem beginsWith_refl (l : List Char) : beginsWith l l = true := by
  induction l with
  | nil => rfl
  | cons c cs ih => simp [beginsWith, ih]

theorem containsB_of_beginsWith_drop (l pat : List Char) (i : Nat)
    (h : beginsWith (l.drop i) pat = true) : containsB l pat = true := by
  induction l generalizing i with
  | nil => simpa [containsB] using h
  | cons c cs ih =>
    cases i with
    | zero => simp only [List.drop_zero] at h; simp [containsB, h]
    | succ j =>
      simp only [List.drop_succ_cons] at h
      simp [containsB, ih j h]

theorem drop_eq_of_endsWithB {l pat : List Char} (h : endsWithB l pat = true) :
    l.drop (l.length - pat.length) = pat := by
  simp only [endsWithB, Bool.and_eq_true, decide_eq_true_eq] at h
  exact h.2

theorem containsB_of_endsWithB {l pat : List Char} (h : endsWithB l pat = true) :
    containsB l pat = true := by
  apply containsB_of_beginsWith_drop l pat (l.length - pat.length)
  rw [drop_eq_of_endsWithB h]
  exact beginsWith_refl pat

/-! ### Helper lemmas: sorting by id -/

theorem insertById_map (f : Entry → Entry) (hf : ∀ e, (f e).id = e.id)
    (e : Entry) (l : List Entry) :
    insertById (f e) (l.map f) = (insertById e l).map f := by
  induction l with
  | nil => simp [insertById]
  | cons x xs ih =>
    simp only [List.map_cons, insertById, hf]
    by_cases h : e.id ≤ x.id
    · simp [h]
    · simp [h, ih]

theorem sortById_map (f : Entry → Entry) (hf : ∀ e, (f e).id = e.id)
    (l : List Entry) : sortById (l.map f) = (sortById l).map f := by
  induction l with
  | nil => rfl
  | cons x xs ih => simp only [List.map_cons, sortById, ih, insertById_map f hf]

theorem sortById_eq_self {l : List Entry}
    (h : List.Pairwise (fun a b => a.id ≤ b.id) l) : sortById l = l := by
  induction l with
  | nil => rfl
  | cons x xs ih =>
    have hx : ∀ y ∈ xs, x.id ≤ y.id := fun y hy => List.rel_of_pairwise_cons h hy
    have hxs : List.Pairwise (fun a b : Entry => a.id ≤ b.id) xs := h.of_cons
    rw [sortById, ih hxs]
    cases xs with
    | nil => rfl
    | cons y ys => simp [insertById, hx y (by simp)]

/-! ### The store invariant maintained by every server operation -/

theorem inv_init : Inv Store.init := by
  constructor
  · simp [Store.init]
  · intro e he; simp [Store.init] at he

theorem inv_insert {s : Store} (h : Inv s) (ts : Nat) (dir text : String)
    (ht : text ≠ "") : Inv (db_insert_message s ts dir text none).1 := by
  obtain ⟨hpw, hok⟩ := h
  constructor
  · simp only [db_insert_message]
    rw [List.pairwise_append]
    refine ⟨hpw, by simp, ?_⟩
    intro a ha b hb
    simp only [List.mem_singleton] at hb
    subst hb
    exact (hok a ha).1
  · intro e he
    simp only [db_insert_message, List.mem_append, List.mem_singleton] at he
    rcases he with he | he
    · obtain ⟨h1, h2, h3⟩ := hok e he
      exact ⟨Nat.lt_succ_of_lt h1, h2, h3⟩
    · subst he
      exact ⟨Nat.lt_succ_self _, ht, fun _ => rfl⟩

theorem inv_mark {s : Store} (h : Inv s) (i : Nat) : Inv (db_mark_delivered s i) := by
  obtain ⟨hpw, hok⟩ := h
  constructor
  · simp only [db_mark_delivered]
    rw [List.pairwise_map]
    refine hpw.imp_of_mem ?_
    intro a b _ _ hab
    by_cases ha : a.id = i <;> by_cases hb : b.id = i <;> simp [ha, hb] <;> omega
  · intro e he
    simp only [db_mark_delivered, List.mem_map] at he
    obtain ⟨a, ha, rfl⟩ := he
    obtain ⟨h1, h2, h3⟩ := hok a ha
    simp only [entryOk, db_mark_delivered]
    by_cases hid : a.id = i
    · simp only [if_pos hid]
      exact ⟨h1, h2, h3⟩
    · simp only [if_neg hid]
      exact ⟨h1, h2, h3⟩

theorem inv_set_audio {s : Store} (h : Inv s) (i : Nat) (p : String)
    (hdir : ∀ e ∈ s.entries, e.id = i → e.direction ≠ "user") :
    Inv (db_set_audio_path s i p) := by
  obtain ⟨hpw, hok⟩ := h
  constructor
  · simp only [db_set_audio_path]
    rw [List.pairwise_map]
    refine hpw.imp_of_mem ?_
    intro a b _ _ hab
    by_cases ha : a.id = i <;> by_cases hb : b.id = i <;> simp [ha, hb] <;> omega
  · intro e he
    simp only [db_set_audio_path, List.mem_map] at he
    obtain ⟨a, ha, rfl⟩ := he
    obtain ⟨h1, h2, h3⟩ := hok a ha
    simp only [entryOk, db_set_audio_path]
    by_cases hid : a.id = i
    · have hd := hdir a ha hid
      simp only [if_pos hid]
      exact ⟨h1, h2, fun hcon => absurd hcon hd⟩
    · simp only [if_neg hid]
      exact ⟨h1, h2, h3⟩

theorem call_main_session_ne_empty {r : RelayResult} {t : String}
    (h : call_main_session r = some t) : t ≠ "" := by
  cases r with
  | timeout => simp [call_main_session] at h
  | connError => simp [call_main_session] at h
  | content u =>
    simp only [call_main_session] at h
    by_cases hu : u = ""
    · simp [hu] at h
    · simp only [hu, if_false] at h
      cases h
      exact hu

theorem inv_pvm {s : Store} (h : Inv s) (relay : RelayResult) (ttsOk : Bool)
    (ts : Nat) (text : String) (mid : Nat) :
    Inv (process_voice_message relay ttsOk ts s text mid).1 := by
  unfold process_voice_message
  cases hc : call_main_session relay with
  | none => exact h
  | some response =>
    dsimp only
    have hresp : response ≠ "" := call_main_session_ne_empty hc
    have h1 : Inv (db_insert_message s ts "jarvis" response none).1 :=
      inv_insert h ts "jarvis" response hresp
    cases htts : generate_tts ttsOk (db_insert_message s ts "jarvis" response none).2 with
    | none => exact h1
    | some p =>
      dsimp only
      refine inv_set_audio h1 _ p ?_
      intro e he hid
      simp only [db_insert_message, List.mem_append, List.mem_singleton] at he hid
      rcases he with he | he
      · exact absurd hid (Nat.ne_of_lt (h.2 e he).1)
      · subst he; simp

theorem inv_speak {s : Store} (h : Inv s) (relay : RelayResult) (ttsOk : Bool)
    (ts : Nat) (text : String) : Inv (speak_handler relay ttsOk ts s text).1 := by
  unfold speak_handler
  by_cases ht : strTrim text = ""
  · simpa [ht] using h
  · simp only [ht, if_false]
    exact inv_pvm (inv_insert h ts "user" (strTrim text) ht) _ _ _ _ _

theorem inv_respond {s : Store} (h : Inv s) (ttsOk : Bool) (ts : Nat)
    (text : String) : Inv (respond_handler ttsOk ts s text).1 := by
  unfold respond_handler
  by_cases ht : strTrim text = ""
  · simpa [ht] using h
  · simp only [ht, if_false]
    have h1 : Inv (db_insert_message s ts "jarvis" (strTrim text) none).1 :=
      inv_insert h ts "jarvis" (strTrim text) ht
    cases htts : generate_tts ttsOk (db_insert_message s ts "jarvis" (strTrim text) none).2 with
    | none => exact h1
    | some p =>
      refine inv_set_audio h1 _ p ?_
      intro e he hid
      simp only [db_insert_message, List.mem_append, List.mem_singleton] at he hid
      rcases he with he | he
      · exact absurd hid (Nat.ne_of_lt (h.2 e he).1)
      · subst he; simp

theorem inv_applyOp {s : Store} (h : Inv s) (op : Op) : Inv (applyOp s op) := by
  cases op with
  | speak relay ttsOk ts text => exact inv_speak h relay ttsOk ts text
  | respond ttsOk ts text => exact inv_respond h ttsOk ts text
  | ack i => exact inv_mark h i

theorem inv_foldl {s : Store} (h : Inv s) (ops : List Op) :
    Inv (ops.foldl applyOp s) := by
  induction ops generalizing s with
  | nil => exact h
  | cons op rest ih => exact ih (inv_applyOp h op)

theorem reachable_inv {s : Store} (h : Reachable s) : Inv s := by
  obtain ⟨ops, rfl⟩ := h
  exact inv_foldl inv_init ops

/-! ### Helper lemmas: the two UPDATE statements as row maps -/

theorem db_mark_delivered_entries (s : Store) (i : Nat) :
    (db_mark_delivered s i).entries = s.entries.map (markFn i) := rfl

theorem db_set_audio_path_entries (s : Store) (j : Nat) (p : String) :
    (db_set_audio_path s j p).entries = s.entries.map (audioFn j p) := rfl

theorem markFn_id (i : Nat) (e : Entry) : (markFn i e).id = e.id := by
  by_cases h : e.id = i <;> simp [markFn, h]

theorem markFn_view (i : Nat) (e : Entry) : (markFn i e).view = e.view := by
  by_cases h : e.id = i <;> simp [markFn, Entry.view, h]

theorem audioFn_id (j : Nat) (p : String) (e : Entry) : (audioFn j p e).id = e.id := by
  by_cases h : e.id = j <;> simp [audioFn, h]

theorem audioFn_delivered (j : Nat) (p : String) (e : Entry) :
    (audioFn j p e).delivered = e.delivered := by
  by_cases h : e.id = j <;> simp [audioFn, h]

/-! ### Helper lemmas: a true delivered flag survives every operation -/

theorem delivered_persists_pvm (relay : RelayResult) (ttsOk : Bool) (ts : Nat)
    (s : Store) (text : String) (mid : Nat) {e : Entry} (he : e ∈ s.entries)
    (hd : e.delivered = true) :
    ∃ e' ∈ (process_voice_message relay ttsOk ts s text mid).1.entries,
      e'.id = e.id ∧ e'.delivered = true := by
  unfold process_voice_message
  cases call_main_session relay with
  | none => exact ⟨e, he, rfl, hd⟩
  | some response =>
    dsimp only
    have he1 : e ∈ (db_insert_message s ts "jarvis" response none).1.entries :=
      List.mem_append_left _ he
    cases generate_tts ttsOk (db_insert_message s ts "jarvis" response none).2 with
    | none => exact ⟨e, he1, rfl, hd⟩
    | some p =>
      dsimp only
      refine ⟨audioFn (db_insert_message s ts "jarvis" response none).2 p e, ?_, ?_, ?_⟩
      · rw [db_set_audio_path_entries]
        exact List.mem_map_of_mem _ he1
      · exact audioFn_id _ _ _
      · rw [audioFn_delivered]; exact hd

theorem delivered_persists_applyOp (s : Store) (op : Op) {e : Entry}
    (he : e ∈ s.entries) (hd : e.delivered = true) :
    ∃ e' ∈ (applyOp s op).entries, e'.id = e.id ∧ e'.delivered = true := by
  cases op with
  | speak relay ttsOk ts text =>
    show ∃ e' ∈ (speak_handler relay ttsOk ts s text).1.entries, _
    unfold speak_handler
    by_cases ht : strTrim text = ""
    · simp only [ht, if_true]
      exact ⟨e, he, rfl, hd⟩
    · simp only [ht, if_false]
      exact delivered_persists_pvm _ _ _ _ _ _ (List.mem_append_left _ he) hd
  | respond ttsOk ts text =>
    show ∃ e' ∈ (respond_handler ttsOk ts s text).1.entries, _
    unfold respond_handler
    by_cases ht : strTrim text = ""
    · simp only [ht, if_true]
      exact ⟨e, he, rfl, hd⟩
    · simp only [ht, if_false]
      have he1 : e ∈ (db_insert_message s ts "jarvis" (strTrim text) none).1.entries :=
        List.mem_append_left _ he
      cases generate_tts ttsOk (db_insert_message s ts "jarvis" (strTrim text) none).2 with
      | none => exact ⟨e, he1, rfl, hd⟩
      | some p =>
        dsimp only
        refine ⟨audioFn (db_insert_message s ts "jarvis" (strTrim text) none).2 p e, ?_,
          audioFn_id _ _ _, ?_⟩
        · rw [db_set_audio_path_entries]
          exact List.mem_map_of_mem _ he1
        · rw [audioFn_delivered]; exact hd
  | ack i =>
    show ∃ e' ∈ (db_mark_delivered s i).entries, _
    refine ⟨markFn i e, ?_, markFn_id _ _, ?_⟩
    · rw [db_mark_delivered_entries]
      exact List.mem_map_of_mem _ he
    · by_cases h : e.id = i <;> simp [markFn, h, hd]

/-! ### Helper lemmas: the client buffer after a flush -/

theorem sendBufferedSpeech_clears_buffer (st : ClientState) :
    (sendBufferedSpeech st).speechBuffer = [] := by
  unfold sendBufferedSpeech
  by_cases h : st.speechBuffer = []
  · simp [h]
  · simp only [h, if_false]
    by_cases h2 : strTrim (String.intercalate " " st.speechBuffer) ≠ "" <;>
      simp [h2, sendToServer]

theorem containsB_over_of_endsWith_overDot {l : List Char}
    (h : endsWithB l "over.".data = true) : containsB l "over".data = true := by
  have hd := drop_eq_of_endsWithB h
  apply containsB_of_beginsWith_drop l _ (l.length - "over.".data.length)
  rw [hd]
  decide

/-! ### Claim theorems -/

/-- C2: for every store state reachable by any sequence of requests, every
cursor `c` and every limit, the poll read `db_get_messages_since` returns its
rows in strictly ascending id order, and every returned id is strictly
greater than `c`. -/
theorem poll_read_strictly_ascending_after_cursor (s : Store) (h : Reachable s)
    (c limit : Nat) :
    List.Pairwise (fun a b : EntryView => a.id < b.id)
      (db_get_messages_since s c limit) ∧
    ∀ v ∈ db_get_messages_since s c limit, c < v.id := by
  obtain ⟨hpw, _⟩ := reachable_inv h
  have hfil : List.Pairwise (fun a b : Entry => a.id < b.id)
      (s.entries.filter fun e => c < e.id) := hpw.filter _
  have hfle : List.Pairwise (fun a b : Entry => a.id ≤ b.id)
      (s.entries.filter fun e => c < e.id) :=
    hfil.imp fun hab => Nat.le_of_lt hab
  constructor
  · unfold db_get_messages_since
    rw [sortById_eq_self hfle, List.pairwise_map]
    exact List.Pairwise.sublist (List.take_sublist _ _) hfil
  · intro v hv
    unfold db_get_messages_since at hv
    rw [sortById_eq_self hfle] at hv
    obtain ⟨e, he, rfl⟩ := List.mem_map.1 hv
    have he2 : e ∈ s.entries.filter fun e => c < e.id :=
      (List.take_sublist _ _).mem he
    have := (List.mem_filter.1 he2).2
    simpa [Entry.view] using this

/-- Witness for C2 at a concrete reachable store. -/
theorem poll_read_strictly_ascending_after_cursor_witness :
    List.Pairwise (fun a b : EntryView => a.id < b.id)
      (db_get_messages_since (runOps speakDemoOps) 0 50) ∧
    ∀ v ∈ db_get_messages_since (runOps speakDemoOps) 0 50, 0 < v.id :=
  poll_read_strictly_ascending_after_cursor (runOps speakDemoOps)
    ⟨speakDemoOps, rfl⟩ 0 50

/-- C6: `ack` (`db_mark_delivered`) is idempotent on every store state, and
acking an id no row has leaves the store unchanged (and signals no error —
the operation is total). -/
theorem ack_idempotent_and_unknown_id_noop (s : Store) (i : Nat) :
    db_mark_delivered (db_mark_delivered s i) i = db_mark_delivered s i ∧
    ((∀ e ∈ s.entries, e.id ≠ i) → db_mark_delivered s i = s) := by
  constructor
  · simp only [db_mark_delivered, List.map_map]
    congr 1
    apply List.map_congr_left
    intro a _
    by_cases h : a.id = i <;> simp [Function.comp, h]
  · intro h
    simp only [db_mark_delivered]
    have hmap : (s.entries.map fun e =>
        if e.id = i then { e with delivered := true } else e) = s.entries := by
      have h2 : ∀ a ∈ s.entries,
          (fun e => if e.id = i then { e with delivered := true } else e) a = id a := by
        intro a ha
        simp [h a ha]
      rw [List.map_congr_left h2, List.map_id]
    rw [hmap]

/-- Witness for C6 at a concrete store and ids. -/
theorem ack_idempotent_and_unknown_id_noop_witness :
    db_mark_delivered (db_mark_delivered ackDemoStore 1) 1 =
      db_mark_delivered ackDemoStore 1 ∧
    db_mark_delivered ackDemoStore 99 = ackDemoStore :=
  ⟨(ack_idempotent_and_unknown_id_noop ackDemoStore 1).1,
    (ack_idempotent_and_unknown_id_noop ackDemoStore 99).2 (by decide)⟩

/-- C8: in every reachable store state no row has an audio asset while its
text is empty, and user rows never carry an audio asset. -/
theorem no_asset_without_text (s : Store) (h : Reachable s) :
    ∀ e ∈ s.entries, ¬(e.audio_path ≠ none ∧ e.text = "") ∧
      (e.direction = "user" → e.audio_path = none) := by
  intro e he
  obtain ⟨_, h2, h3⟩ := (reachable_inv h).2 e he
  exact ⟨fun hc => h2 hc.2, h3⟩

/-- Witness for C8 at a concrete reachable store and row. -/
theorem no_asset_without_text_witness :
    ¬(replyDemoEntry.audio_path ≠ none ∧ replyDemoEntry.text = "") ∧
      (replyDemoEntry.direction = "user" → replyDemoEntry.audio_path = none) :=
  no_asset_without_text (runOps speakDemoOps) ⟨speakDemoOps, rfl⟩
    replyDemoEntry (by decide)

/-- C3: the three relay failure kinds — timeout, connection error, and empty
content — are all mapped to `None` by `call_main_session`; with a failed
relay, `process_voice_message` leaves the store untouched and reports no
reply; and a submitted turn whose relay fails leaves exactly the user row in
the store, with no agent row for that turn. -/
theorem relay_failure_creates_no_reply :
    (call_main_session .timeout = none ∧ call_main_session .connError = none ∧
      call_main_session (.content "") = none) ∧
    (∀ (relay : RelayResult) (ttsOk : Bool) (ts : Nat) (s : Store)
      (text : String) (mid : Nat), call_main_session relay = none →
      process_voice_message relay ttsOk ts s text mid = (s, none)) ∧
    (∀ (relay : RelayResult) (ttsOk : Bool) (ts : Nat) (s : Store)
      (text : String), call_main_session relay = none → strTrim text ≠ "" →
      (speak_handler relay ttsOk ts s text).1.entries =
        s.entries ++ [⟨s.nextId, ts, "user", strTrim text, none, false⟩]) := by
  refine ⟨⟨rfl, rfl, by decide⟩, ?_, ?_⟩
  · intro relay ttsOk ts s text mid hc
    unfold process_voice_message
    rw [hc]
  · intro relay ttsOk ts s text hc ht
    unfold speak_handler
    simp only [ht, if_false]
    unfold process_voice_message
    rw [hc]
    rfl

/-- Witness for C3 at a concrete failing relay call. -/
theorem relay_failure_creates_no_reply_witness :
    process_voice_message .timeout true 0 Store.init "hello" 1 =
      (Store.init, none) ∧
    (speak_handler .timeout true 0 Store.init "hello").1.entries =
      Store.init.entries ++
        [⟨Store.init.nextId, 0, "user", strTrim "hello", none, false⟩] :=
  ⟨relay_failure_creates_no_reply.2.1 .timeout true 0 Store.init "hello" 1 rfl,
    relay_failure_creates_no_reply.2.2 .timeout true 0 Store.init "hello" rfl
      (by decide)⟩

/-- C5: when the relay succeeds with non-empty reply `r` but synthesis fails,
the reply row is inserted with its text set and no audio asset, and the turn
still ends successfully (the new reply id is returned; nothing is retried). -/
theorem synthesis_failure_leaves_text_only_reply (ts : Nat) (s : Store)
    (text : String) (mid : Nat) (r : String) (hr : r ≠ "") :
    process_voice_message (.content r) false ts s text mid =
      (⟨s.entries ++ [⟨s.nextId, ts, "jarvis", r, none, false⟩], s.nextId + 1⟩,
        some s.nextId) := by
  unfold process_voice_message call_main_session
  simp only [hr, if_false]
  rfl

/-- Witness for C5 at a concrete turn. -/
theorem synthesis_failure_leaves_text_only_reply_witness :
    process_voice_message (.content "Hi.") false 0 Store.init "hello" 1 =
      (⟨[⟨1, 0, "jarvis", "Hi.", none, false⟩], 2⟩, some 1) := by
  have h := synthesis_failure_leaves_text_only_reply 0 Store.init "hello" 1 "Hi."
    (by decide)
  simpa [Store.init] using h

/-- C1 counterexample: at a concrete submit call with a successful relay, the
handler's response already carries the reply id, and a `jarvis` reply row
created by this very turn is already in the store at the moment the submit
call returns — refuting "no reply Entry created by this turn exists when
submit returns". -/
theorem speak_reply_already_exists_at_return :
    (speak_handler (.content "Hi.") true 0 Store.init "hello").2 =
      some (1, some 2) ∧
    ∃ e ∈ (speak_handler (.content "Hi.") true 0 Store.init "hello").1.entries,
      e.direction = "jarvis" ∧ e.text = "Hi." := by decide

/-- C1 amended: on non-empty (after stripping) text, the submit handler
persists the user row and returns its id — but the relay call and synthesis
run synchronously inside the submit call: the response also carries the reply
id, and when the relay succeeds the reply row already exists in the store at
the moment submit returns. -/
theorem speak_runs_pipeline_synchronously (relay : RelayResult) (ttsOk : Bool)
    (ts : Nat) (s : Store) (text : String) (ht : strTrim text ≠ "") :
    ∃ rid, (speak_handler relay ttsOk ts s text).2 = some (s.nextId, rid) ∧
      (⟨s.nextId, ts, "user", strTrim text, none, false⟩ : Entry) ∈
        (speak_handler relay ttsOk ts s text).1.entries ∧
      ∀ r, call_main_session relay = some r →
        rid = some (s.nextId + 1) ∧
        ∃ e ∈ (speak_handler relay ttsOk ts s text).1.entries,
          e.id = s.nextId + 1 ∧ e.direction = "jarvis" ∧ e.text = r := by
  unfold speak_handler
  simp only [ht, if_false]
  unfold process_voice_message
  cases hc : call_main_session relay with
  | none =>
    refine ⟨none, rfl, ?_, ?_⟩
    · exact List.mem_append_right _ (by simp [db_insert_message])
    · intro r hr
      cases hr
  | some response =>
    dsimp only
    cases htts : generate_tts ttsOk
        (db_insert_message (db_insert_message s ts "user" (strTrim text) none).1
          ts "jarvis" response none).2 with
    | none =>
      refine ⟨some (s.nextId + 1), rfl, ?_, ?_⟩
      · exact List.mem_append_left _
          (List.mem_append_right _ (by simp [db_insert_message]))
      · intro r hr
        cases hr
        refine ⟨rfl, ⟨s.nextId + 1, ts, "jarvis", response, none, false⟩, ?_, rfl, rfl, rfl⟩
        exact List.mem_append_right _ (by simp [db_insert_message])
    | some p =>
      dsimp only
      refine ⟨some (s.nextId + 1), rfl, ?_, ?_⟩
      · rw [db_set_audio_path_entries]
        have hu : (⟨s.nextId, ts, "user", strTrim text, none, false⟩ : Entry) ∈
            (db_insert_message (db_insert_message s ts "user" (strTrim text) none).1
              ts "jarvis" response none).1.entries :=
          List.mem_append_left _
            (List.mem_append_right _ (by simp [db_insert_message]))
        have := List.mem_map_of_mem
          (audioFn (db_insert_message
            (db_insert_message s ts "user" (strTrim text) none).1
            ts "jarvis" response none).2 p) hu
        simp only [audioFn, db_insert_message] at this
        rw [if_neg (Nat.ne_of_lt (Nat.lt_succ_self s.nextId))] at this
        exact this
      · intro r hr
        cases hr
        refine ⟨rfl, ?_⟩
        rw [db_set_audio_path_entries]
        have hj : (⟨s.nextId + 1, ts, "jarvis", response, none, false⟩ : Entry) ∈
            (db_insert_message (db_insert_message s ts "user" (strTrim text) none).1
              ts "jarvis" response none).1.entries :=
          List.mem_append_right _ (by simp [db_insert_message])
        refine ⟨audioFn (db_insert_message
            (db_insert_message s ts "user" (strTrim text) none).1
            ts "jarvis" response none).2 p ⟨s.nextId + 1, ts, "jarvis", response, none, false⟩,
          List.mem_map_of_mem _ hj, ?_⟩
        simp [audioFn, db_insert_message]

/-- Witness for the amended C1 at a concrete submit call. -/
theorem speak_runs_pipeline_synchronously_witness :
    ∃ rid, (speak_handler (.content "Hi.") true 0 Store.init "hello").2 =
      some (Store.init.nextId, rid) ∧
      (⟨Store.init.nextId, 0, "user", strTrim "hello", none, false⟩ : Entry) ∈
        (speak_handler (.content "Hi.") true 0 Store.init "hello").1.entries ∧
      ∀ r, call_main_session (.content "Hi.") = some r →
        rid = some (Store.init.nextId + 1) ∧
        ∃ e ∈ (speak_handler (.content "Hi.") true 0 Store.init "hello").1.entries,
          e.id = Store.init.nextId + 1 ∧ e.direction = "jarvis" ∧ e.text = r :=
  speak_runs_pipeline_synchronously (.content "Hi.") true 0 Store.init "hello"
    (by decide)

/-- C4 counterexample: the segment "you over!" ends with the cue word after
trimming the trailing "!", so under the claim's rule it must flush; the code
only accepts "over" or "over." as suffixes, so it buffers the segment and
emits nothing. -/
theorem cue_trailing_punctuation_not_flushed :
    specFlushTrigger "you over!" = true ∧
    processSegment true ClientState.init "you over!" = ⟨["you over!"], []⟩ := by
  decide

/-- C4 amended: a segment flushes exactly when it case-insensitively ends
with "over" or "over." (only a single trailing period is tolerated, not
arbitrary trailing punctuation; the `includes` conjunct of the code's check
is redundant); after any flush the buffer is empty; and the concrete run
["hello", "how are", "you over"] emits exactly "hello how are you" leaving
an empty buffer. -/
theorem cue_trigger_matches_code_rule :
    (∀ text : String, codeFlushTrigger text =
      (strEndsWith (lowerStr text) "over" || strEndsWith (lowerStr text) "over.")) ∧
    (∀ (st : ClientState) (t : String), t ≠ "" → t ≠ "(silence)" →
      codeFlushTrigger (strTrim t) = true →
      (processSegment true st t).speechBuffer = []) ∧
    processSegments true ClientState.init ["hello", "how are", "you over"] =
      ⟨[], ["hello how are you"]⟩ := by
  refine ⟨?_, ?_, by decide⟩
  · intro text
    simp only [codeFlushTrigger]
    cases h : (strEndsWith (lowerStr text) "over" ||
        strEndsWith (lowerStr text) "over.") with
    | false => rw [Bool.and_false]
    | true =>
      rw [Bool.and_true]
      rcases Bool.or_eq_true_iff.mp h with h1 | h2
      · exact containsB_of_endsWithB h1
      · exact containsB_over_of_endsWith_overDot h2
  · intro st t h1 h2 htrig
    unfold processSegment
    rw [if_pos ⟨h1, h2⟩]
    simp only [htrig, if_true]
    exact sendBufferedSpeech_clears_buffer _

/-- Witness for the amended C4 at a concrete flushing segment. -/
theorem cue_trigger_matches_code_rule_witness :
    (processSegment true ClientState.init "you over").speechBuffer = [] :=
  cue_trigger_matches_code_rule.2.1 ClientState.init "you over" (by decide)
    (by decide) (by decide)

/-- C7: the delivered flag never gates reads — for every store state, cursor,
limit and id, the poll read and the history read return the identical
sequence of rows before and after `db_mark_delivered`. -/
theorem delivered_flag_never_gates_reads (s : Store) (i c limit : Nat) :
    db_get_messages_since (db_mark_delivered s i) c limit =
      db_get_messages_since s c limit ∧
    history_handler (db_mark_delivered s i) limit = history_handler s limit := by
  have hid := markFn_id i
  have hfilter : ((s.entries.map (markFn i)).filter fun e => c < e.id) =
      (s.entries.filter fun e => c < e.id).map (markFn i) := by
    rw [List.filter_map]
    congr 1
    apply List.filter_congr
    intro e _
    simp [Function.comp, hid]
  have hview : ∀ l : List Entry, (l.map (markFn i)).map Entry.view =
      l.map Entry.view := by
    intro l
    rw [List.map_map]
    apply List.map_congr_left
    intro e _
    exact markFn_view i e
  constructor
  · unfold db_get_messages_since
    rw [db_mark_delivered_entries, hfilter, sortById_map _ hid, ← List.map_take,
      hview]
  · unfold history_handler sortByIdDesc
    refine congrArg List.reverse ?_
    rw [db_mark_delivered_entries, sortById_map _ hid, ← List.map_reverse,
      ← List.map_take, hview]

/-- C9: every poll returns at most 50 rows; when more than 50 rows lie past
the cursor, exactly 50 are returned, and every candidate row left out has an
id larger than every returned id (the 50 smallest candidate ids are the ones
returned); the limit is fixed — `poll_handler` takes no limit argument. -/
theorem poll_batch_capped_at_fifty (s : Store) (h : Reachable s) (c : Nat) :
    (poll_handler s c).length ≤ 50 ∧
    (50 < (s.entries.filter fun e => c < e.id).length →
      (poll_handler s c).length = 50) ∧
    (∀ e ∈ s.entries, c < e.id → (∀ v ∈ poll_handler s c, v.id ≠ e.id) →
      ∀ v ∈ poll_handler s c, v.id < e.id) := by
  obtain ⟨hpw, _⟩ := reachable_inv h
  have hfil : List.Pairwise (fun a b : Entry => a.id < b.id)
      (s.entries.filter fun e => c < e.id) := hpw.filter _
  have hfle : List.Pairwise (fun a b : Entry => a.id ≤ b.id)
      (s.entries.filter fun e => c < e.id) :=
    hfil.imp fun hab => Nat.le_of_lt hab
  have hpoll : poll_handler s c =
      ((s.entries.filter fun e => c < e.id).take 50).map Entry.view := by
    unfold poll_handler db_get_messages_since
    rw [sortById_eq_self hfle]
  refine ⟨?_, ?_, ?_⟩
  · rw [hpoll, List.length_map, List.length_take]
    omega
  · intro hlen
    rw [hpoll, List.length_map, List.length_take]
    omega
  · intro e he hce hnot v hv
    have he2 : e ∈ s.entries.filter fun e => c < e.id :=
      List.mem_filter.2 ⟨he, by simpa using hce⟩
    rw [hpoll] at hv hnot
    obtain ⟨x, hx, rfl⟩ := List.mem_map.1 hv
    have hsplit := List.take_append_drop 50 (s.entries.filter fun e => c < e.id)
    have he3 : e ∈ (s.entries.filter fun e => c < e.id).take 50 ++
        (s.entries.filter fun e => c < e.id).drop 50 := by
      rw [hsplit]; exact he2
    rcases List.mem_append.1 he3 with he4 | he4
    · exact absurd rfl (hnot e.view (List.mem_map_of_mem _ he4))
    · have hpw2 : List.Pairwise (fun a b : Entry => a.id < b.id)
          ((s.entries.filter fun e => c < e.id).take 50 ++
            (s.entries.filter fun e => c < e.id).drop 50) := by
        rw [hsplit]; exact hfil
      exact (List.pairwise_append.1 hpw2).2.2 x hx e he4

/-- Witness for C9 at a concrete reachable store. -/
theorem poll_batch_capped_at_fifty_witness :
    (poll_handler (runOps speakDemoOps) 0).length ≤ 50 ∧
    (50 < ((runOps speakDemoOps).entries.filter fun e => 0 < e.id).length →
      (poll_handler (runOps speakDemoOps) 0).length = 50) ∧
    (∀ e ∈ (runOps speakDemoOps).entries, 0 < e.id →
      (∀ v ∈ poll_handler (runOps speakDemoOps) 0, v.id ≠ e.id) →
      ∀ v ∈ poll_handler (runOps speakDemoOps) 0, v.id < e.id) :=
  poll_batch_capped_at_fifty (runOps speakDemoOps) ⟨speakDemoOps, rfl⟩ 0

/-- C10: `db_mark_delivered` is a pure frame on the delivered flag — it keeps
the id counter and the row count, and for each position it preserves id,
timestamp, direction, text and audio path, changing only the delivered flag
of the row whose id matches (to true); moreover no server operation ever
turns a true delivered flag back to false. -/
theorem mark_delivered_frame_and_monotone (s : Store) (i : Nat) :
    (db_mark_delivered s i).nextId = s.nextId ∧
    (db_mark_delivered s i).entries.length = s.entries.length ∧
    (∀ k (hk : k < s.entries.length)
      (hk' : k < (db_mark_delivered s i).entries.length),
      ((db_mark_delivered s i).entries.get ⟨k, hk'⟩).id =
        (s.entries.get ⟨k, hk⟩).id ∧
      ((db_mark_delivered s i).entries.get ⟨k, hk'⟩).timestamp =
        (s.entries.get ⟨k, hk⟩).timestamp ∧
      ((db_mark_delivered s i).entries.get ⟨k, hk'⟩).direction =
        (s.entries.get ⟨k, hk⟩).direction ∧
      ((db_mark_delivered s i).entries.get ⟨k, hk'⟩).text =
        (s.entries.get ⟨k, hk⟩).text ∧
      ((db_mark_delivered s i).entries.get ⟨k, hk'⟩).audio_path =
        (s.entries.get ⟨k, hk⟩).audio_path ∧
      ((db_mark_delivered s i).entries.get ⟨k, hk'⟩).delivered =
        (if (s.entries.get ⟨k, hk⟩).id = i then true
          else (s.entries.get ⟨k, hk⟩).delivered)) ∧
    (∀ (op : Op) (e : Entry), e ∈ s.entries → e.delivered = true →
      ∃ e' ∈ (applyOp s op).entries, e'.id = e.id ∧ e'.delivered = true) := by
  refine ⟨rfl, ?_, ?_, ?_⟩
  · rw [db_mark_delivered_entries, List.length_map]
  · intro k hk hk'
    have hget : (db_mark_delivered s i).entries.get ⟨k, hk'⟩ =
        markFn i (s.entries.get ⟨k, hk⟩) := by
      simp only [db_mark_delivered_entries, List.get_eq_getElem, List.getElem_map]
    rw [hget]
    simp only [markFn]
    by_cases hcase : (s.entries.get ⟨k, hk⟩).id = i
    · rw [if_pos hcase, if_pos hcase]
      exact ⟨rfl, rfl, rfl, rfl, rfl, rfl⟩
    · rw [if_neg hcase, if_neg hcase]
      exact ⟨rfl, rfl, rfl, rfl, rfl, rfl⟩
  · intro op e he hd
    exact delivered_persists_applyOp s op he hd

/-- Witness for C10 at a concrete store, index and operation. -/
theorem mark_delivered_frame_and_monotone_witness :
    ((db_mark_delivered frameDemoStore 2).entries.get ⟨0, by decide⟩).text =
      (frameDemoStore.entries.get ⟨0, by decide⟩).text ∧
    ∃ e' ∈ (applyOp frameDemoStore (.speak (.content "Yo.") true 4 "hey")).entries,
      e'.id = (⟨1, 0, "user", "hi", none, true⟩ : Entry).id ∧ e'.delivered = true :=
  ⟨((mark_delivered_frame_and_monotone frameDemoStore 2).2.2.1 0 (by decide)
      (by decide)).2.2.2.1,
    (mark_delivered_frame_and_monotone frameDemoStore 2).2.2.2
      (.speak (.content "Yo.") true 4 "hey") ⟨1, 0, "user", "hi", none, true⟩
      (by decide) (by decide)⟩

end VoiceChat
